import Mathlib

/-!
# Verification of the timeline-derivation core of `src/src/App.jsx`

This file gives a shallow embedding of the pure derivation logic of the
investment-tracker single-page app and proves the specification claims
about it.

Modelling conventions, chosen to match the JavaScript source exactly:

* A calendar date string `YYYY-MM-DD` is embedded as the natural number
  `YYYYMMDD`.  For well-formed ISO dates the lexicographic string order
  (used by `Array.prototype.sort` on the date strings and by the
  `d.date < year-01-01` comparison), the numeric order of the codes, and
  the chronological order of `new Date(...).getTime()` all coincide, and
  `d.date.startsWith(year)` holds exactly when `code / 10000 = year`.
* Amounts and exchange rates are embedded as rationals.
* `getTime()` instants are modelled as milliseconds since the Unix epoch
  assuming a UTC host clock, so every civil day spans 86400000 ms and a
  date string parses to the UTC midnight of that day.
* `Array.prototype.sort` is stable (ES2019), so sorting descending by
  date and taking element `[0]` selects the earliest-listed record among
  those of maximal date; the embedding uses Mathlib's stable
  `List.insertionSort` with the source's comparator.
* JavaScript `null` results are embedded as `Option.none`.
-/

/-- The four asset categories of `ASSET_LABELS` in `src/src/App.jsx`. -/
inductive AssetType where
  | tw_stock
  | us_stock
  | tw_cash
  | us_cash
deriving DecidableEq

/-- An asset snapshot record, as stored in the `assets` ledger state. -/
structure AssetRecord where
  id : String
  date : Nat
  type : AssetType
  amount : ℚ
  exchangeRate : ℚ
  note : String
deriving DecidableEq

/-- One derived point of the historical curve: the object literal built
inside the `timelineData` `useMemo` (fields `date`, `total`,
`investment`, `us_inv`, `tw_inv`). -/
structure TimelinePoint where
  date : Nat
  total : ℚ
  investment : ℚ
  us_inv : ℚ
  tw_inv : ℚ
deriving DecidableEq

/-- The records of one category dated at or before the query date:
`assets.filter(a => a.type === type && new Date(a.date).getTime() <= currentMoment)`. -/
def recordsLe (assets : List AssetRecord) (t : AssetType) (d : Nat) : List AssetRecord :=
  assets.filter (fun a => decide (a.type = t ∧ a.date ≤ d))

/-- Stable descending sort by date:
`sort((a, b) => new Date(b.date).getTime() - new Date(a.date).getTime())`. -/
def sortByDateDesc (l : List AssetRecord) : List AssetRecord :=
  List.insertionSort (fun a b => b.date ≤ a.date) l

/-- The record selected for one category at a query date: element `[0]`
of the descending-sorted relevant records. -/
def latestLe (assets : List AssetRecord) (t : AssetType) (d : Nat) : Option AssetRecord :=
  (sortByDateDesc (recordsLe assets t d)).head?

/-- Home-currency value contributed by category `t` at query date `d`:
`latest.amount * latest.exchangeRate`, or `0` when no record of the
category is dated at or before `d`. -/
def catValueAt (assets : List AssetRecord) (t : AssetType) (d : Nat) : ℚ :=
  match latestLe assets t d with
  | none => 0
  | some r => r.amount * r.exchangeRate

/-- The timeline point reconstructed for one query date, mirroring the
body of `uniqueDates.map(date => ...)` in the `timelineData` memo. -/
def pointAt (assets : List AssetRecord) (d : Nat) : TimelinePoint :=
  { date := d
    total := catValueAt assets .tw_stock d + catValueAt assets .us_stock d +
      catValueAt assets .tw_cash d + catValueAt assets .us_cash d
    investment := catValueAt assets .tw_stock d + catValueAt assets .us_stock d
    us_inv := catValueAt assets .us_stock d
    tw_inv := catValueAt assets .tw_stock d }

/-- `Array.from(new Set(assets.map(a => a.date))).sort()`: the distinct
dates of the ledger in ascending order. -/
def uniqueDatesSorted (assets : List AssetRecord) : List Nat :=
  List.insertionSort (fun a b => a ≤ b) (assets.map (fun a => a.date)).dedup

/-- The `timelineData` memo of `src/src/App.jsx` (the spec's
`buildTimeline`): empty ledger gives an empty curve, otherwise one point
per distinct date in ascending order. -/
def buildTimeline (assets : List AssetRecord) : List TimelinePoint :=
  if assets = [] then []
  else (uniqueDatesSorted assets).map (pointAt assets)

/-- The `currentStatus` memo: for one category, `amount * exchangeRate`
of its latest-dated record (`0` when the category has no records). -/
def currentStatus (assets : List AssetRecord) (t : AssetType) : ℚ :=
  match (sortByDateDesc (assets.filter (fun a => decide (a.type = t)))).head? with
  | none => 0
  | some latest => latest.amount * latest.exchangeRate

/-- `totalAssetsTwd`: the sum of the four current per-category values. -/
def totalAssetsTwd (assets : List AssetRecord) : ℚ :=
  currentStatus assets .tw_stock + currentStatus assets .us_stock +
    currentStatus assets .tw_cash + currentStatus assets .us_cash

/-- Days since 1970-01-01 of the civil date `(y, m, d)` with 1-based
months, following the standard civil-from-days counting used by
ECMAScript `MakeDay`.  The formula is linear in `d`, so day numbers
beyond the month's length roll over into later months exactly as
ECMAScript date normalization does. -/
def civilDays (y m d : Int) : Int :=
  let yShift := if m ≤ 2 then y - 1 else y
  let era := Int.fdiv yShift 400
  let yoe := yShift - era * 400
  let mp := Int.emod (m + 9) 12
  let doy := Int.fdiv (153 * mp + 2) 5 + d - 1
  let doe := yoe * 365 + Int.fdiv yoe 4 - Int.fdiv yoe 100 + doy
  era * 146097 + doe - 719468

/-- Milliseconds per civil day (UTC clock, no daylight saving). -/
def msPerDay : Int := 86400000

/-- A clock instant described by its ECMAScript UTC components: year,
0-based month, day of month, and milliseconds elapsed within the day. -/
structure Instant where
  year : Int
  month : Int
  day : Int
  msOfDay : Int
deriving DecidableEq

/-- `getTime()` of an instant. -/
def Instant.ms (i : Instant) : Int :=
  civilDays i.year (i.month + 1) 1 * msPerDay + (i.day - 1) * msPerDay + i.msOfDay

/-- `d.setMonth(d.getMonth() - k)` followed by `getTime()`: ECMAScript
`MakeDay` renormalizes the month total with floored division and keeps
the day-of-month and time-of-day (overflowing days roll over). -/
def Instant.shiftMonths (i : Instant) (k : Int) : Int :=
  let tm := i.year * 12 + (i.month - k)
  civilDays (Int.fdiv tm 12) (Int.emod tm 12 + 1) 1 * msPerDay +
    (i.day - 1) * msPerDay + i.msOfDay

/-- `d.setFullYear(d.getFullYear() - k)` followed by `getTime()`. -/
def Instant.shiftYears (i : Instant) (k : Int) : Int :=
  civilDays (i.year - k) (i.month + 1) 1 * msPerDay + (i.day - 1) * msPerDay + i.msOfDay

/-- `new Date(dateString).getTime()` for a `YYYYMMDD` date code: the UTC
midnight of that civil day. -/
def dateMs (c : Nat) : Int :=
  civilDays (c / 10000 : Nat) ((c / 100) % 100 : Nat) (c % 100 : Nat) * msPerDay

/-- The instant `new Date(dateString)`, decomposed into components. -/
def Instant.ofCode (c : Nat) : Instant :=
  { year := (c / 10000 : Nat)
    month := ((c / 100) % 100 : Nat) - 1
    day := (c % 100 : Nat)
    msOfDay := 0 }

/-- The chart period keys of `PERIODS`. -/
inductive Period where
  | m1
  | m3
  | m6
  | y1
  | y3
  | all
deriving DecidableEq

/-- The cutoff instant computed by the `if` chain of the
`filteredTimeline` memo for each bounded period (for `all` the code
returns before any cutoff is used; the value here is the unshifted
reference instant, matching the initial `new Date()`). -/
def periodCutoffMs (i : Instant) : Period → Int
  | .m1 => i.shiftMonths 1
  | .m3 => i.shiftMonths 3
  | .m6 => i.shiftMonths 6
  | .y1 => i.shiftYears 1
  | .y3 => i.shiftYears 3
  | .all => i.ms

/-- The `filteredTimeline` memo (the spec's `filterByPeriod`),
parameterized by the reference instant `new Date()`. -/
def filterByPeriod (tl : List TimelinePoint) (p : Period) (i : Instant) : List TimelinePoint :=
  if p = Period.all then tl
  else tl.filter (fun q => decide (periodCutoffMs i p ≤ dateMs q.date))

/-- The two chart modes `total` and `investment` selecting the metric. -/
inductive Mode where
  | total
  | investment
deriving DecidableEq

/-- `mode === 'total' ? p.total : p.investment`. -/
def metric : Mode → TimelinePoint → ℚ
  | .total, q => q.total
  | .investment, q => q.investment

/-- `Math.abs(pDate.getTime() - targetDate.getTime())`. -/
def msDist (target : Int) (q : TimelinePoint) : Int :=
  |dateMs q.date - target|

/-- The `forEach` scan of `calculateTrailingGrowth`: keep the running
best point and its distance, replacing it only on a strictly smaller
distance (so the first point attaining the minimum wins). -/
def nearestAux (target : Int) : TimelinePoint → Int → List TimelinePoint → TimelinePoint
  | best, _, [] => best
  | best, bd, q :: qs =>
    if msDist target q < bd then nearestAux target q (msDist target q) qs
    else nearestAux target best bd qs

/-- `calculateTrailingGrowth(months, mode)` from `src/src/App.jsx`.  The
scan starts from the first point with an infinite initial distance, which
is equivalent to seeding the scan with the first point's own distance. -/
def calculateTrailingGrowth (tl : List TimelinePoint) (months : Int) (mode : Mode) : Option ℚ :=
  if tl.length < 2 then none
  else
    match tl with
    | [] => none
    | q :: qs =>
      let lastPoint := List.getLast (q :: qs) (List.cons_ne_nil q qs)
      let currentValue := metric mode lastPoint
      let target := (Instant.ofCode lastPoint.date).shiftMonths months
      let comparisonPoint := nearestAux target q (msDist target q) qs
      let prevValue := metric mode comparisonPoint
      if prevValue = 0 then some 0
      else some ((currentValue - prevValue) / prevValue * 100)

/-- The `{growth, startVal, endVal}` result object of
`calculateAnnualGrowth`. -/
structure AnnualStats where
  growth : Option ℚ
  startVal : ℚ
  endVal : ℚ
deriving DecidableEq

/-- `calculateAnnualGrowth(year)` from `src/src/App.jsx`, with the
enclosing `chartMode` passed explicitly.  `d.date.startsWith(year)`
becomes `date / 10000 = year` and the string comparison
with the `year-01-01` string becomes `date < year * 10000 + 101`.
The source's initial empty-timeline check is subsumed: an empty timeline
has no points in the year, and both paths return `{null, 0, 0}`. -/
def calculateAnnualGrowth (tl : List TimelinePoint) (year : Nat) (mode : Mode) : AnnualStats :=
  let pointsInYear := tl.filter (fun q => decide (q.date / 10000 = year))
  let pointsBeforeYear := tl.filter (fun q => decide (q.date < year * 10000 + 101))
  match pointsInYear.getLast?, pointsInYear.head? with
  | some endPoint, some startPoint =>
    let endVal := metric mode endPoint
    match pointsBeforeYear.getLast? with
    | some prevEndPoint =>
      let startVal := metric mode prevEndPoint
      if startVal = 0 then ⟨none, startVal, endVal⟩
      else ⟨some ((endVal - startVal) / startVal * 100), startVal, endVal⟩
    | none =>
      if pointsInYear.length = 1 then ⟨none, 0, endVal⟩
      else
        let startVal := metric mode startPoint
        if startVal = 0 then ⟨none, startVal, endVal⟩
        else ⟨some ((endVal - startVal) / startVal * 100), startVal, endVal⟩
  | _, _ => ⟨none, 0, 0⟩

/-- A well-formed `YYYYMMDD` date code: month between 1 and 12, day
between 1 and 31.  The spec guarantees malformed records are rejected at
ledger-write time, before the deriver runs. -/
def ValidDateCode (c : Nat) : Prop :=
  1 ≤ (c / 100) % 100 ∧ (c / 100) % 100 ≤ 12 ∧ 1 ≤ c % 100 ∧ c % 100 ≤ 31

instance : DecidablePred ValidDateCode := fun c =>
  decidable_of_iff
    (1 ≤ (c / 100) % 100 ∧ (c / 100) % 100 ≤ 12 ∧ 1 ≤ c % 100 ∧ c % 100 ≤ 31) Iff.rfl

/-- The repository's default seed ledger (and the worked example of the
spec): two `us_stock` and two `tw_stock` snapshots one year apart. -/
def exampleRecords : List AssetRecord :=
  [ { id := "1", date := 20250105, type := .us_stock, amount := 78130,
      exchangeRate := 32.5, note := "" },
    { id := "2", date := 20250105, type := .tw_stock, amount := 107947,
      exchangeRate := 1, note := "" },
    { id := "3", date := 20260105, type := .us_stock, amount := 94937,
      exchangeRate := 32.5, note := "" },
    { id := "4", date := 20260105, type := .tw_stock, amount := 147107,
      exchangeRate := 1, note := "" } ]

attribute [local semireducible] Rat.mul Rat.add Rat.sub Rat.inv Rat.ofScientific

/-! ## Helper lemmas about the stable descending sort -/

/-- The earliest-listed record of maximal date, the element that a stable
descending sort by date places first. -/
def firstMaxRec : List AssetRecord → Option AssetRecord
  | [] => none
  | r :: rs =>
    match firstMaxRec rs with
    | none => some r
    | some m => if m.date ≤ r.date then some r else some m

theorem head_orderedInsert {α : Type} (r : α → α → Prop) [DecidableRel r] (a : α)
    (l : List α) :
    (List.orderedInsert r a l).head? =
      some (match l.head? with
            | none => a
            | some b => if r a b then a else b) := by
  cases l with
  | nil => rfl
  | cons b t =>
    show (if r a b then a :: b :: t else b :: List.orderedInsert r a t).head? = _
    by_cases h : r a b
    · simp [h]
    · simp [h]

theorem sortByDateDesc_head (l : List AssetRecord) :
    (sortByDateDesc l).head? = firstMaxRec l := by
  induction l with
  | nil => rfl
  | cons a t ih =>
    show (List.orderedInsert _ a (sortByDateDesc t)).head? = _
    rw [head_orderedInsert, firstMaxRec]
    rw [← ih]
    cases h : (sortByDateDesc t).head? with
    | none => rfl
    | some m => by_cases hc : m.date ≤ a.date <;> simp [hc]

theorem firstMaxRec_eq_none {l : List AssetRecord} :
    firstMaxRec l = none ↔ l = [] := by
  cases l with
  | nil => simp [firstMaxRec]
  | cons a t =>
    simp only [firstMaxRec]
    cases h : firstMaxRec t with
    | none => simp
    | some m => by_cases hc : m.date ≤ a.date <;> simp [hc]

theorem firstMaxRec_spec :
    ∀ {l : List AssetRecord} {m : AssetRecord}, firstMaxRec l = some m →
      m ∈ l ∧ ∀ x ∈ l, x.date ≤ m.date := by
  intro l
  induction l with
  | nil => intro m h; simp [firstMaxRec] at h
  | cons a t ih =>
    intro m h
    rw [firstMaxRec] at h
    cases ht : firstMaxRec t with
    | none =>
      rw [ht] at h
      obtain rfl : a = m := by simpa using h
      have : t = [] := firstMaxRec_eq_none.mp ht
      subst this
      simp
    | some w =>
      rw [ht] at h
      obtain ⟨hw, hmax⟩ := ih ht
      have h2 : (if w.date ≤ a.date then some a else some w) = some m := h
      by_cases hc : w.date ≤ a.date
      · rw [if_pos hc] at h2
        obtain rfl : a = m := by simpa using h2
        refine ⟨by simp, ?_⟩
        intro x hx
        rcases List.mem_cons.mp hx with rfl | hx
        · exact le_refl _
        · exact le_trans (hmax x hx) hc
      · rw [if_neg hc] at h2
        obtain rfl : w = m := by simpa using h2
        refine ⟨List.mem_cons_of_mem _ hw, ?_⟩
        intro x hx
        rcases List.mem_cons.mp hx with rfl | hx
        · exact le_of_not_le hc
        · exact hmax x hx

theorem catValueAt_eq_firstMax (assets : List AssetRecord) (t : AssetType) (d : Nat) :
    catValueAt assets t d =
      match firstMaxRec (recordsLe assets t d) with
      | none => 0
      | some r => r.amount * r.exchangeRate := by
  unfold catValueAt latestLe
  rw [sortByDateDesc_head]

/-! ## Helper lemmas about the timeline skeleton -/

theorem pointAt_date (assets : List AssetRecord) (d : Nat) : (pointAt assets d).date = d := rfl

theorem uniqueDatesSorted_sorted (assets : List AssetRecord) :
    (uniqueDatesSorted assets).Sorted (fun a b => a ≤ b) :=
  List.sorted_insertionSort _ _

theorem uniqueDatesSorted_nodup (assets : List AssetRecord) :
    (uniqueDatesSorted assets).Nodup :=
  ((List.perm_insertionSort _ _).symm).nodup (List.nodup_dedup _)

theorem mem_uniqueDatesSorted {assets : List AssetRecord} {d : Nat} :
    d ∈ uniqueDatesSorted assets ↔ d ∈ assets.map (fun a => a.date) := by
  unfold uniqueDatesSorted
  rw [(List.perm_insertionSort _ _).mem_iff]
  exact List.mem_dedup

theorem buildTimeline_map_date (assets : List AssetRecord) :
    (buildTimeline assets).map (fun p => p.date) = uniqueDatesSorted assets := by
  unfold buildTimeline
  by_cases h : assets = []
  · subst h; rfl
  · rw [if_neg h, List.map_map]
    exact List.map_id _

theorem mem_buildTimeline_iff {assets : List AssetRecord} {p : TimelinePoint} :
    p ∈ buildTimeline assets ↔
      ∃ d, d ∈ assets.map (fun a => a.date) ∧ p = pointAt assets d := by
  unfold buildTimeline
  by_cases h : assets = []
  · subst h; simp
  · rw [if_neg h, List.mem_map]
    constructor
    · rintro ⟨d, hd, rfl⟩
      exact ⟨d, mem_uniqueDatesSorted.mp hd, rfl⟩
    · rintro ⟨d, hd, rfl⟩
      exact ⟨d, mem_uniqueDatesSorted.mpr hd, rfl⟩

theorem sorted_le_getLast? :
    ∀ {l : List Nat}, l.Sorted (fun a b => a ≤ b) →
      ∀ {x m : Nat}, x ∈ l → l.getLast? = some m → x ≤ m := by
  intro l
  induction l with
  | nil => intro _ x m hx; simp at hx
  | cons a t ih =>
    intro hs x m hx hm
    cases t with
    | nil =>
      simp at hx hm
      omega
    | cons b t2 =>
      rw [List.getLast?_cons_cons] at hm
      rcases List.mem_cons.mp hx with rfl | hx
      · have hmem : m ∈ b :: t2 := List.mem_of_getLast?_eq_some hm
        exact (List.sorted_cons.mp hs).1 m hmem
      · exact ih (List.sorted_cons.mp hs).2 hx hm

/-! ## C1, C2, C3 -/

/-- C1: at any query date, each category's contribution equals
`amount * exchangeRate` of the most recent record of that category dated
at or before the query date, and 0 when there is none; the value is
carried forward across date gaps without records of the category (LOCF);
and these contributions are exactly what the timeline point that
`buildTimeline` produces for a present date reports. -/
theorem catValue_locf_spec (rs : List AssetRecord) (t : AssetType) (d d1 d2 : Nat) :
    ((∀ r ∈ rs, r.type = t → ¬ r.date ≤ d) → catValueAt rs t d = 0) ∧
    ((∃ r ∈ rs, r.type = t ∧ r.date ≤ d) →
      ∃ r ∈ rs, r.type = t ∧ r.date ≤ d ∧
        (∀ q ∈ rs, q.type = t → q.date ≤ d → q.date ≤ r.date) ∧
        catValueAt rs t d = r.amount * r.exchangeRate) ∧
    (d1 < d2 → (∀ r ∈ rs, r.type = t → r.date ≤ d2 → r.date ≤ d1) →
      catValueAt rs t d2 = catValueAt rs t d1) ∧
    (d ∈ rs.map (fun r => r.date) →
      pointAt rs d ∈ buildTimeline rs ∧
      (pointAt rs d).tw_inv = catValueAt rs .tw_stock d ∧
      (pointAt rs d).us_inv = catValueAt rs .us_stock d ∧
      (pointAt rs d).investment = catValueAt rs .tw_stock d + catValueAt rs .us_stock d ∧
      (pointAt rs d).total = catValueAt rs .tw_stock d + catValueAt rs .us_stock d +
        catValueAt rs .tw_cash d + catValueAt rs .us_cash d) := by
  refine ⟨?_, ?_, ?_, ?_⟩
  · intro h
    have hnil : recordsLe rs t d = [] := by
      apply List.filter_eq_nil_iff.mpr
      intro a ha hpa
      rw [decide_eq_true_iff] at hpa
      exact h a ha hpa.1 hpa.2
    rw [catValueAt_eq_firstMax, hnil]
    rfl
  · rintro ⟨r, hr, hrt, hrd⟩
    have hmem : r ∈ recordsLe rs t d :=
      List.mem_filter.mpr ⟨hr, decide_eq_true ⟨hrt, hrd⟩⟩
    cases hfm : firstMaxRec (recordsLe rs t d) with
    | none =>
      rw [firstMaxRec_eq_none] at hfm
      rw [hfm] at hmem
      simp at hmem
    | some m =>
      obtain ⟨hmmem, hmax⟩ := firstMaxRec_spec hfm
      have hm2 := List.mem_filter.mp hmmem
      have hmp := of_decide_eq_true hm2.2
      refine ⟨m, hm2.1, hmp.1, hmp.2, ?_, ?_⟩
      · intro q hq hqt hqd
        exact hmax q (List.mem_filter.mpr ⟨hq, decide_eq_true ⟨hqt, hqd⟩⟩)
      · rw [catValueAt_eq_firstMax, hfm]
  · intro hlt h
    have heq : recordsLe rs t d2 = recordsLe rs t d1 := by
      apply List.filter_congr
      intro a ha
      rw [decide_eq_decide]
      constructor
      · rintro ⟨h1, h2⟩; exact ⟨h1, h a ha h1 h2⟩
      · rintro ⟨h1, h2⟩; exact ⟨h1, le_trans h2 (le_of_lt hlt)⟩
    unfold catValueAt latestLe
    rw [heq]
  · intro hd
    exact ⟨mem_buildTimeline_iff.mpr ⟨d, hd, rfl⟩, rfl, rfl, rfl, rfl⟩

/-- A small concrete ledger used to instantiate proved properties. -/
def wRecords : List AssetRecord :=
  [ { id := "a", date := 20250105, type := .tw_stock, amount := 107947,
      exchangeRate := 1, note := "" },
    { id := "b", date := 20260105, type := .tw_stock, amount := 147107,
      exchangeRate := 1, note := "" } ]

/-- Witness for C1 at a concrete ledger: the tw_stock value is carried
forward from 2025-01-05 to 2025-12-31, and the point built for a present
date is in the timeline. -/
theorem catValue_locf_spec_witness :
    catValueAt wRecords .tw_stock 20251231 = catValueAt wRecords .tw_stock 20250105 ∧
    pointAt wRecords 20250105 ∈ buildTimeline wRecords := by
  have h := catValue_locf_spec wRecords .tw_stock 20250105 20250105 20251231
  exact ⟨h.2.2.1 (by decide) (by decide), (h.2.2.2 (by decide)).1⟩

/-- C2: `buildTimeline` returns the empty sequence on empty input, its
dates are strictly ascending, a date appears in the output exactly when
it occurs in the input, and the output length is the number of distinct
input dates. -/
theorem buildTimeline_shape_spec (rs : List AssetRecord) :
    buildTimeline ([] : List AssetRecord) = [] ∧
    ((buildTimeline rs).map (fun p => p.date)).Sorted (fun a b => a < b) ∧
    (∀ d, d ∈ (buildTimeline rs).map (fun p => p.date) ↔ d ∈ rs.map (fun r => r.date)) ∧
    (buildTimeline rs).length = (rs.map (fun r => r.date)).dedup.length := by
  refine ⟨rfl, ?_, ?_, ?_⟩
  · rw [buildTimeline_map_date]
    exact List.Sorted.lt_of_le (uniqueDatesSorted_sorted rs) (uniqueDatesSorted_nodup rs)
  · intro d
    rw [buildTimeline_map_date]
    exact mem_uniqueDatesSorted
  · have h1 : (buildTimeline rs).length =
        ((buildTimeline rs).map (fun p => p.date)).length := (List.length_map _ _).symm
    rw [h1, buildTimeline_map_date]
    exact (List.perm_insertionSort _ _).length_eq

/-- C3: every produced point's investment value is the sum of the two
equity categories, and its total is the investment value plus the two
cash categories. -/
theorem point_total_decomposition (rs : List AssetRecord) (p : TimelinePoint)
    (hp : p ∈ buildTimeline rs) :
    p.investment = catValueAt rs .tw_stock p.date + catValueAt rs .us_stock p.date ∧
    p.total = p.investment +
      (catValueAt rs .tw_cash p.date + catValueAt rs .us_cash p.date) := by
  obtain ⟨d, hd, rfl⟩ := mem_buildTimeline_iff.mp hp
  refine ⟨rfl, ?_⟩
  show catValueAt rs .tw_stock d + catValueAt rs .us_stock d +
      catValueAt rs .tw_cash d + catValueAt rs .us_cash d =
    catValueAt rs .tw_stock d + catValueAt rs .us_stock d +
      (catValueAt rs .tw_cash d + catValueAt rs .us_cash d)
  ring

/-- Witness for C3 at a concrete ledger and point. -/
theorem point_total_decomposition_witness :
    (pointAt wRecords 20250105).investment =
      catValueAt wRecords .tw_stock 20250105 + catValueAt wRecords .us_stock 20250105 ∧
    (pointAt wRecords 20250105).total = (pointAt wRecords 20250105).investment +
      (catValueAt wRecords .tw_cash 20250105 + catValueAt wRecords .us_cash 20250105) :=
  point_total_decomposition wRecords (pointAt wRecords 20250105) (by decide)

/-! ## C4: order dependence of the date-category tie-break -/

/-- Two records sharing both date and category but with different amounts. -/
def dupA : AssetRecord :=
  { id := "x", date := 20250105, type := .tw_stock, amount := 1, exchangeRate := 1, note := "" }

/-- Second record with the same date and category as `dupA`. -/
def dupB : AssetRecord :=
  { id := "y", date := 20250105, type := .tw_stock, amount := 2, exchangeRate := 1, note := "" }

/-- Counterexample to C4 as stated: with two records sharing a date and
category, reordering the input multiset changes which record the stable
sort selects, so `buildTimeline` is not a function of the multiset alone. -/
theorem buildTimeline_perm_counterexample :
    List.Perm [dupA, dupB] [dupB, dupA] ∧
    buildTimeline [dupA, dupB] ≠ buildTimeline [dupB, dupA] :=
  ⟨List.Perm.swap dupB dupA [], by decide⟩

theorem recordsLe_dates_nodup (assets : List AssetRecord) (t : AssetType) (d : Nat)
    (hk : (assets.map (fun r => (r.date, r.type))).Nodup) :
    ((recordsLe assets t d).map (fun r => r.date)).Nodup := by
  have hsub : (recordsLe assets t d).Sublist assets := List.filter_sublist assets
  have hk2 : ((recordsLe assets t d).map (fun r => (r.date, r.type))).Nodup :=
    hk.sublist (hsub.map _)
  have heq : (recordsLe assets t d).map (fun r => r.date) =
      ((recordsLe assets t d).map (fun r => (r.date, r.type))).map Prod.fst := by
    rw [List.map_map]
    rfl
  rw [heq]
  apply List.Nodup.map_on ?_ hk2
  intro x hx y hy hxy
  obtain ⟨rx, hrx, rfl⟩ := List.mem_map.mp hx
  obtain ⟨ry, hry, rfl⟩ := List.mem_map.mp hy
  have htx : rx.type = t := (of_decide_eq_true (List.mem_filter.mp hrx).2).1
  have hty : ry.type = t := (of_decide_eq_true (List.mem_filter.mp hry).2).1
  have hdd : rx.date = ry.date := hxy
  exact Prod.ext hdd (htx.trans hty.symm)

theorem firstMaxRec_perm {l1 l2 : List AssetRecord} (h : l1.Perm l2)
    (hd : (l1.map (fun r => r.date)).Nodup) :
    firstMaxRec l1 = firstMaxRec l2 := by
  cases h1 : firstMaxRec l1 with
  | none =>
    rw [firstMaxRec_eq_none] at h1
    subst h1
    have h2 : l2 = [] := h.symm.eq_nil
    subst h2
    rfl
  | some m1 =>
    cases h2 : firstMaxRec l2 with
    | none =>
      rw [firstMaxRec_eq_none] at h2
      subst h2
      have : l1 = [] := h.eq_nil
      subst this
      simp [firstMaxRec] at h1
    | some m2 =>
      obtain ⟨hm1, hmax1⟩ := firstMaxRec_spec h1
      obtain ⟨hm2, hmax2⟩ := firstMaxRec_spec h2
      have hm2b : m2 ∈ l1 := h.mem_iff.mpr hm2
      have hm1b : m1 ∈ l2 := h.mem_iff.mp hm1
      have hdate : m1.date = m2.date :=
        le_antisymm (hmax2 m1 hm1b) (hmax1 m2 hm2b)
      rw [List.inj_on_of_nodup_map hd hm1 hm2b hdate]

theorem recordsLe_perm {l1 l2 : List AssetRecord} (h : l1.Perm l2) (t : AssetType) (d : Nat) :
    (recordsLe l1 t d).Perm (recordsLe l2 t d) := by
  unfold recordsLe
  exact h.filter _

theorem catValueAt_perm {l1 l2 : List AssetRecord} (h : l1.Perm l2)
    (hk : (l1.map (fun r => (r.date, r.type))).Nodup) (t : AssetType) (d : Nat) :
    catValueAt l1 t d = catValueAt l2 t d := by
  rw [catValueAt_eq_firstMax, catValueAt_eq_firstMax,
    firstMaxRec_perm (recordsLe_perm h t d) (recordsLe_dates_nodup l1 t d hk)]

theorem uniqueDatesSorted_perm_eq {l1 l2 : List AssetRecord} (h : l1.Perm l2) :
    uniqueDatesSorted l1 = uniqueDatesSorted l2 := by
  apply List.eq_of_perm_of_sorted ?_ (uniqueDatesSorted_sorted l1) (uniqueDatesSorted_sorted l2)
  unfold uniqueDatesSorted
  exact (List.perm_insertionSort _ _).trans (((h.map _).dedup).trans
    (List.perm_insertionSort _ _).symm)

/-- C4 amended: `buildTimeline` is a function of the input multiset for
ledgers in which no two records share both a date and a category (the
source's stable-sort tie-break is input-order dependent when such
duplicates exist, as the counterexample shows). -/
theorem buildTimeline_perm_invariant (l1 l2 : List AssetRecord) (hperm : l1.Perm l2)
    (hkeys : (l1.map (fun r => (r.date, r.type))).Nodup) :
    buildTimeline l1 = buildTimeline l2 := by
  unfold buildTimeline
  by_cases h1 : l1 = []
  · subst h1
    have h2 : l2 = [] := hperm.symm.eq_nil
    subst h2
    rfl
  · have h2 : l2 ≠ [] := fun hc => h1 (by rw [hc] at hperm; exact hperm.eq_nil)
    rw [if_neg h1, if_neg h2, uniqueDatesSorted_perm_eq hperm]
    apply List.map_congr_left
    intro d _
    have hc : ∀ t, catValueAt l1 t d = catValueAt l2 t d :=
      fun t => catValueAt_perm hperm hkeys t d
    simp [pointAt, hc]

/-- Witness for the amended C4: reversing a duplicate-free ledger leaves
the timeline unchanged. -/
theorem buildTimeline_perm_invariant_witness :
    buildTimeline wRecords = buildTimeline wRecords.reverse :=
  buildTimeline_perm_invariant _ _ (List.reverse_perm wRecords).symm (by decide)

/-! ## C5: trailing growth and the nearest-point scan -/

theorem nearestAux_le_best (target : Int) :
    ∀ (l : List TimelinePoint) (best : TimelinePoint),
      msDist target (nearestAux target best (msDist target best) l) ≤ msDist target best := by
  intro l
  induction l with
  | nil => intro best; exact le_refl _
  | cons q qs ih =>
    intro best
    by_cases h : msDist target q < msDist target best
    · have hred : nearestAux target best (msDist target best) (q :: qs) =
          nearestAux target q (msDist target q) qs := by
        simp only [nearestAux, if_pos h]
      rw [hred]
      exact le_trans (ih q) (le_of_lt h)
    · have hred : nearestAux target best (msDist target best) (q :: qs) =
          nearestAux target best (msDist target best) qs := by
        simp only [nearestAux, if_neg h]
      rw [hred]
      exact ih best

theorem nearestAux_split (target : Int) :
    ∀ (l : List TimelinePoint) (best : TimelinePoint),
      ∃ l1 l2,
        best :: l = l1 ++ (nearestAux target best (msDist target best) l) :: l2 ∧
        (∀ x ∈ l1,
          msDist target (nearestAux target best (msDist target best) l) < msDist target x) ∧
        (∀ x ∈ l2,
          msDist target (nearestAux target best (msDist target best) l) ≤ msDist target x) := by
  intro l
  induction l with
  | nil =>
    intro best
    exact ⟨[], [], rfl, by simp, by simp⟩
  | cons q qs ih =>
    intro best
    by_cases h : msDist target q < msDist target best
    · have hred : nearestAux target best (msDist target best) (q :: qs) =
          nearestAux target q (msDist target q) qs := by
        simp only [nearestAux, if_pos h]
      obtain ⟨l1, l2, hsplit, hl1, hl2⟩ := ih q
      refine ⟨best :: l1, l2, ?_, ?_, ?_⟩
      · rw [hred, List.cons_append, ← hsplit]
      · intro x hx
        rw [hred]
        rcases List.mem_cons.mp hx with rfl | hx
        · exact lt_of_le_of_lt (nearestAux_le_best target qs q) h
        · exact hl1 x hx
      · intro x hx
        rw [hred]
        exact hl2 x hx
    · have hred : nearestAux target best (msDist target best) (q :: qs) =
          nearestAux target best (msDist target best) qs := by
        simp only [nearestAux, if_neg h]
      obtain ⟨l1, l2, hsplit, hl1, hl2⟩ := ih best
      cases l1 with
      | nil =>
        rw [List.nil_append, List.cons.injEq] at hsplit
        obtain ⟨hb, hqs⟩ := hsplit
        refine ⟨[], q :: qs, ?_, by simp, ?_⟩
        · rw [List.nil_append, hred, ← hb]
        · intro x hx
          rw [hred]
          rcases List.mem_cons.mp hx with rfl | hx
          · rw [← hb]
            exact le_of_not_lt h
          · exact hl2 x (hqs ▸ hx)
      | cons b l1t =>
        rw [List.cons_append, List.cons.injEq] at hsplit
        obtain ⟨hb, hqs⟩ := hsplit
        refine ⟨best :: q :: l1t, l2, ?_, ?_, ?_⟩
        · rw [hred, List.cons_append, List.cons_append, ← hqs]
        · intro x hx
          rw [hred]
          have hbest : msDist target (nearestAux target best (msDist target best) qs) <
              msDist target best := by
            have := hl1 b (by simp)
            rw [← hb] at this
            exact this
          rcases List.mem_cons.mp hx with rfl | hx
          · exact hbest
          · rcases List.mem_cons.mp hx with rfl | hx
            · exact lt_of_lt_of_le hbest (le_of_not_lt h)
            · exact hl1 x (by simp [hx])
        · intro x hx
          rw [hred]
          exact hl2 x hx

/-- C5: with at least two points, `calculateTrailingGrowth` compares the
metric of the last point against the point whose date is nearest in
absolute time distance to the last date shifted back by the given number
of calendar months, ties broken by the first occurrence in the ascending
scan; the result is the percentage change, or 0 when the comparison
value is 0. -/
theorem trailingGrowth_spec (tl : List TimelinePoint) (months : Int) (mode : Mode)
    (h2 : 2 ≤ tl.length) :
    ∃ lastP cp l1 l2,
      tl.getLast? = some lastP ∧
      tl = l1 ++ cp :: l2 ∧
      (∀ x ∈ l1, msDist ((Instant.ofCode lastP.date).shiftMonths months) cp <
        msDist ((Instant.ofCode lastP.date).shiftMonths months) x) ∧
      (∀ x ∈ tl, msDist ((Instant.ofCode lastP.date).shiftMonths months) cp ≤
        msDist ((Instant.ofCode lastP.date).shiftMonths months) x) ∧
      calculateTrailingGrowth tl months mode =
        some (if metric mode cp = 0 then 0
          else (metric mode lastP - metric mode cp) / metric mode cp * 100) := by
  match tl, h2 with
  | q :: qs, h2 =>
  have hne : (q :: qs : List TimelinePoint) ≠ [] := List.cons_ne_nil q qs
  obtain ⟨l1, l2, hsplit, hl1, hl2⟩ :=
    nearestAux_split ((Instant.ofCode ((q :: qs).getLast hne).date).shiftMonths months) qs q
  refine ⟨(q :: qs).getLast hne,
    nearestAux ((Instant.ofCode ((q :: qs).getLast hne).date).shiftMonths months) q
      (msDist ((Instant.ofCode ((q :: qs).getLast hne).date).shiftMonths months) q) qs,
    l1, l2, List.getLast?_eq_getLast_of_ne_nil hne, hsplit, hl1, ?_, ?_⟩
  · intro x hx
    rw [hsplit] at hx
    rcases List.mem_append.mp hx with hx | hx
    · exact le_of_lt (hl1 x hx)
    · rcases List.mem_cons.mp hx with rfl | hx
      · exact le_refl _
      · exact hl2 x hx
  · have hredTop : calculateTrailingGrowth (q :: qs) months mode =
        (if metric mode (nearestAux
            ((Instant.ofCode ((q :: qs).getLast hne).date).shiftMonths months) q
            (msDist ((Instant.ofCode ((q :: qs).getLast hne).date).shiftMonths months) q)
            qs) = 0 then some 0
         else some ((metric mode ((q :: qs).getLast hne) -
            metric mode (nearestAux
              ((Instant.ofCode ((q :: qs).getLast hne).date).shiftMonths months) q
              (msDist ((Instant.ofCode ((q :: qs).getLast hne).date).shiftMonths months) q)
              qs)) /
            metric mode (nearestAux
              ((Instant.ofCode ((q :: qs).getLast hne).date).shiftMonths months) q
              (msDist ((Instant.ofCode ((q :: qs).getLast hne).date).shiftMonths months) q)
              qs) * 100)) := by
      unfold calculateTrailingGrowth
      rw [if_neg (not_lt.mpr h2)]
    rw [hredTop]
    by_cases hz : metric mode (nearestAux
        ((Instant.ofCode ((q :: qs).getLast hne).date).shiftMonths months) q
        (msDist ((Instant.ofCode ((q :: qs).getLast hne).date).shiftMonths months) q)
        qs) = 0
    · rw [if_pos hz, if_pos hz]
    · rw [if_neg hz, if_neg hz]

/-- Concrete timeline points used to instantiate the growth theorems. -/
def w5a : TimelinePoint :=
  { date := 20250105, total := 100, investment := 60, us_inv := 30, tw_inv := 30 }

/-- Second concrete timeline point, one year after `w5a`. -/
def w5b : TimelinePoint :=
  { date := 20260105, total := 150, investment := 90, us_inv := 45, tw_inv := 45 }

/-- Witness for C5 on a concrete two-point timeline. -/
theorem trailingGrowth_spec_witness :
    2 ≤ ([w5a, w5b] : List TimelinePoint).length ∧
    (∃ lastP cp l1 l2,
      ([w5a, w5b] : List TimelinePoint).getLast? = some lastP ∧
      [w5a, w5b] = l1 ++ cp :: l2 ∧
      (∀ x ∈ l1, msDist ((Instant.ofCode lastP.date).shiftMonths 12) cp <
        msDist ((Instant.ofCode lastP.date).shiftMonths 12) x) ∧
      (∀ x ∈ [w5a, w5b], msDist ((Instant.ofCode lastP.date).shiftMonths 12) cp ≤
        msDist ((Instant.ofCode lastP.date).shiftMonths 12) x) ∧
      calculateTrailingGrowth [w5a, w5b] 12 Mode.total =
        some (if metric Mode.total cp = 0 then 0
          else (metric Mode.total lastP - metric Mode.total cp) /
            metric Mode.total cp * 100)) :=
  ⟨by decide, trailingGrowth_spec [w5a, w5b] 12 Mode.total (by decide)⟩

/-! ## C6: insufficient data on short timelines -/

/-- C6: on a timeline with fewer than two points, `calculateTrailingGrowth`
returns the no-result value, and (for well-formed dates)
`calculateAnnualGrowth` reports a no-result growth for every queried year. -/
theorem insufficient_data_spec (tl : List TimelinePoint) (months : Int) (mode : Mode)
    (year : Nat) (h : tl.length < 2) :
    calculateTrailingGrowth tl months mode = none ∧
    ((∀ q ∈ tl, ValidDateCode q.date) → (calculateAnnualGrowth tl year mode).growth = none) := by
  constructor
  · unfold calculateTrailingGrowth
    rw [if_pos h]
  · intro hv
    match tl, h with
    | [], _ => rfl
    | [p], _ =>
      have hvp : ValidDateCode p.date := hv p (by simp)
      by_cases hy : p.date / 10000 = year
      · have hin : List.filter (fun q => decide (q.date / 10000 = year)) [p] = [p] := by
          simp [List.filter, hy]
        have hbe : List.filter (fun q => decide (q.date < year * 10000 + 101)) [p] = [] := by
          have : ¬ p.date < year * 10000 + 101 := by
            obtain ⟨h1, h2, h3, h4⟩ := hvp
            omega
          simp [List.filter, this]
        unfold calculateAnnualGrowth
        rw [hin, hbe]
        rfl
      · have hin : List.filter (fun q => decide (q.date / 10000 = year)) [p] = [] := by
          simp [List.filter, hy]
        unfold calculateAnnualGrowth
        rw [hin]
        rfl

/-- Witness for C6 on a concrete one-point timeline. -/
theorem insufficient_data_spec_witness :
    calculateTrailingGrowth [w5a] 12 Mode.total = none ∧
    (calculateAnnualGrowth [w5a] 2025 Mode.total).growth = none := by
  have h := insufficient_data_spec [w5a] 12 Mode.total 2025 (by decide)
  exact ⟨h.1, h.2 (by decide)⟩

/-! ## C7: annual growth -/

theorem beforeYear_filter_eq (tl : List TimelinePoint) (year : Nat)
    (hv : ∀ q ∈ tl, ValidDateCode q.date) :
    tl.filter (fun q => decide (q.date < year * 10000 + 101)) =
      tl.filter (fun q => decide (q.date / 10000 < year)) := by
  apply List.filter_congr
  intro q hq
  rw [decide_eq_decide]
  obtain ⟨h1, h2, h3, h4⟩ := hv q hq
  omega

/-- C7: for a year containing at least one point (dates well-formed),
`calculateAnnualGrowth` reports the metric of the year's last point as
`endVal`; the baseline is the last point strictly before the year when
one exists, otherwise the year's first point (no result when the year
has a single point and nothing earlier); the growth is the percentage
change, or the no-result value when the baseline metric is 0, with
`startVal` and `endVal` still reported. -/
theorem annualGrowth_spec (tl : List TimelinePoint) (year : Nat) (mode : Mode)
    (hv : ∀ q ∈ tl, ValidDateCode q.date) (endP : TimelinePoint)
    (hEnd : (tl.filter (fun q => decide (q.date / 10000 = year))).getLast? = some endP) :
    (calculateAnnualGrowth tl year mode).endVal = metric mode endP ∧
    (∀ sp, (tl.filter (fun q => decide (q.date / 10000 < year))).getLast? = some sp →
      (calculateAnnualGrowth tl year mode).startVal = metric mode sp ∧
      (calculateAnnualGrowth tl year mode).growth =
        (if metric mode sp = 0 then none
         else some ((metric mode endP - metric mode sp) / metric mode sp * 100))) ∧
    (tl.filter (fun q => decide (q.date / 10000 < year)) = [] →
      (tl.filter (fun q => decide (q.date / 10000 = year))).length = 1 →
      calculateAnnualGrowth tl year mode = ⟨none, 0, metric mode endP⟩) ∧
    (tl.filter (fun q => decide (q.date / 10000 < year)) = [] →
      2 ≤ (tl.filter (fun q => decide (q.date / 10000 = year))).length →
      ∀ sp, (tl.filter (fun q => decide (q.date / 10000 = year))).head? = some sp →
        (calculateAnnualGrowth tl year mode).startVal = metric mode sp ∧
        (calculateAnnualGrowth tl year mode).growth =
          (if metric mode sp = 0 then none
           else some ((metric mode endP - metric mode sp) / metric mode sp * 100))) := by
  have hfe := beforeYear_filter_eq tl year hv
  have hne : tl.filter (fun q => decide (q.date / 10000 = year)) ≠ [] := by
    intro hc
    rw [hc] at hEnd
    simp at hEnd
  cases hHead : (tl.filter (fun q => decide (q.date / 10000 = year))).head? with
  | none =>
    rw [List.head?_eq_none_iff] at hHead
    exact absurd hHead hne
  | some sp0 =>
    cases hB : (tl.filter (fun q => decide (q.date / 10000 < year))).getLast? with
    | some b =>
      have hredB : calculateAnnualGrowth tl year mode =
          (if metric mode b = 0 then ⟨none, metric mode b, metric mode endP⟩
           else ⟨some ((metric mode endP - metric mode b) / metric mode b * 100),
             metric mode b, metric mode endP⟩) := by
        simp only [calculateAnnualGrowth]
        rw [hfe, hEnd, hHead, hB]
      refine ⟨?_, ?_, ?_, ?_⟩
      · rw [hredB]
        by_cases hz : metric mode b = 0 <;> simp [hz]
      · intro sp hsp
        obtain rfl : b = sp := Option.some.inj hsp
        rw [hredB]
        by_cases hz : metric mode b = 0 <;> simp [hz]
      · intro hempty _
        rw [hempty] at hB
        simp at hB
      · intro hempty _
        rw [hempty] at hB
        simp at hB
    | none =>
      by_cases hlen : (tl.filter (fun q => decide (q.date / 10000 = year))).length = 1
      · have hredN : calculateAnnualGrowth tl year mode = ⟨none, 0, metric mode endP⟩ := by
          simp only [calculateAnnualGrowth]
          rw [hfe, hEnd, hHead, hB]
          dsimp only
          rw [if_pos hlen]
        refine ⟨by rw [hredN], ?_, ?_, ?_⟩
        · intro sp hsp
          exact absurd hsp (by simp)
        · intro _ _
          exact hredN
        · intro _ h2
          omega
      · have hredN : calculateAnnualGrowth tl year mode =
            (if metric mode sp0 = 0 then ⟨none, metric mode sp0, metric mode endP⟩
             else ⟨some ((metric mode endP - metric mode sp0) / metric mode sp0 * 100),
               metric mode sp0, metric mode endP⟩) := by
          simp only [calculateAnnualGrowth]
          rw [hfe, hEnd, hHead, hB]
          dsimp only
          rw [if_neg hlen]
        refine ⟨?_, ?_, ?_, ?_⟩
        · rw [hredN]
          by_cases hz : metric mode sp0 = 0 <;> simp [hz]
        · intro sp hsp
          exact absurd hsp (by simp)
        · intro _ h1
          exact absurd h1 hlen
        · intro _ _ sp hsp
          obtain rfl : sp0 = sp := Option.some.inj hsp
          rw [hredN]
          by_cases hz : metric mode sp0 = 0 <;> simp [hz]

/-- Witness for C7 on a concrete two-point timeline spanning two years. -/
theorem annualGrowth_spec_witness :
    (calculateAnnualGrowth [w5a, w5b] 2026 Mode.total).endVal = metric Mode.total w5b ∧
    (calculateAnnualGrowth [w5a, w5b] 2026 Mode.total).startVal = metric Mode.total w5a ∧
    (calculateAnnualGrowth [w5a, w5b] 2026 Mode.total).growth =
      (if metric Mode.total w5a = 0 then none
       else some ((metric Mode.total w5b - metric Mode.total w5a) /
         metric Mode.total w5a * 100)) := by
  have h := annualGrowth_spec [w5a, w5b] 2026 Mode.total (by decide) w5b (by decide)
  have h2 := h.2.1 w5a (by decide)
  exact ⟨h.1, h2.1, h2.2⟩

/-! ## C8: period filtering -/

/-- C8: the all-time key returns the timeline unchanged; every bounded
key keeps exactly the points dated at or after the calendar-shifted
cutoff, preserving their order (the output is a sublist of the input). -/
theorem filterByPeriod_spec (tl : List TimelinePoint) (per : Period) (i : Instant) :
    filterByPeriod tl Period.all i = tl ∧
    (per ≠ Period.all →
      (∀ q, q ∈ filterByPeriod tl per i ↔ q ∈ tl ∧ periodCutoffMs i per ≤ dateMs q.date) ∧
      (filterByPeriod tl per i).Sublist tl) := by
  constructor
  · simp [filterByPeriod]
  · intro hper
    unfold filterByPeriod
    rw [if_neg hper]
    constructor
    · intro q
      simp [List.mem_filter]
    · exact List.filter_sublist tl

/-- Witness for C8 with the 3-month key at a concrete reference instant. -/
theorem filterByPeriod_spec_witness :
    filterByPeriod [w5a, w5b] Period.all ⟨2026, 5, 15, 0⟩ = [w5a, w5b] ∧
    (w5a ∈ filterByPeriod [w5a, w5b] Period.m3 ⟨2026, 5, 15, 0⟩ ↔
      w5a ∈ [w5a, w5b] ∧ periodCutoffMs ⟨2026, 5, 15, 0⟩ Period.m3 ≤ dateMs w5a.date) := by
  have h := filterByPeriod_spec [w5a, w5b] Period.m3 ⟨2026, 5, 15, 0⟩
  exact ⟨h.1, (h.2 (by decide)).1 w5a⟩

/-! ## C9: the spec's worked example -/

set_option maxRecDepth 8000 in
/-- Counterexample to C9 as stated: on the example ledger the two totals
are 2647172 and 3232559.5 — not the 2647172.5 and 3232554.5 the spec
prints — and the 2026 annual growth is about 22.11 percent, which is not
within half a unit in the last printed place of the claimed 22.12. -/
theorem exampleNumbers_counterexample :
    (buildTimeline exampleRecords).map (fun p => p.total) = [2647172, 3232559.5] ∧
    (2647172 : ℚ) ≠ 2647172.5 ∧
    (3232559.5 : ℚ) ≠ 3232554.5 ∧
    (calculateAnnualGrowth (buildTimeline exampleRecords) 2026 Mode.total).growth =
      some ((3232559.5 - 2647172) / 2647172 * 100) ∧
    ¬ (|(22.12 : ℚ) - (3232559.5 - 2647172) / 2647172 * 100| ≤ 1 / 200) :=
  ⟨by decide, by decide, by decide, by decide, by decide⟩

set_option maxRecDepth 8000 in
/-- C9 amended: on the spec's example ledger `buildTimeline` yields
exactly two points, dated 2025-01-05 and 2026-01-05, with totals 2647172
and 3232559.5; `calculateAnnualGrowth` for 2026 on the total metric
compares exactly these two totals and reports a growth of
(3232559.5 - 2647172) / 2647172 * 100, which is approximately 22.11
percent. -/
theorem exampleNumbers_amended :
    (buildTimeline exampleRecords).map (fun p => (p.date, p.total)) =
      [(20250105, 2647172), (20260105, 3232559.5)] ∧
    calculateAnnualGrowth (buildTimeline exampleRecords) 2026 Mode.total =
      ⟨some ((3232559.5 - 2647172) / 2647172 * 100), 2647172, 3232559.5⟩ ∧
    |(3232559.5 - 2647172) / 2647172 * 100 - (22.11 : ℚ)| ≤ 1 / 200 :=
  ⟨by decide, by decide, by decide⟩

/-! ## C10: the dashboard current status refines the timeline's last point -/

/-- C10: for a non-empty ledger, each category's current-status value is
the category's carried-forward value at the last timeline date, and the
displayed current total equals the last timeline point's total. -/
theorem currentStatus_refines_timeline (assets : List AssetRecord) (h : assets ≠ []) :
    ∃ p, (buildTimeline assets).getLast? = some p ∧
      (∀ t, currentStatus assets t = catValueAt assets t p.date) ∧
      totalAssetsTwd assets = p.total := by
  have hmemdate : ∀ r ∈ assets, r.date ∈ uniqueDatesSorted assets := by
    intro r hr
    exact mem_uniqueDatesSorted.mpr (List.mem_map.mpr ⟨r, hr, rfl⟩)
  have hdne : uniqueDatesSorted assets ≠ [] := by
    cases assets with
    | nil => exact absurd rfl h
    | cons a rest => exact List.ne_nil_of_mem (hmemdate a (by simp))
  obtain ⟨dmax, hdmax⟩ : ∃ dmax, (uniqueDatesSorted assets).getLast? = some dmax := by
    cases hu : (uniqueDatesSorted assets).getLast? with
    | none =>
      rw [List.getLast?_eq_none_iff] at hu
      exact absurd hu hdne
    | some m => exact ⟨m, rfl⟩
  have hlastTl : (buildTimeline assets).getLast? = some (pointAt assets dmax) := by
    unfold buildTimeline
    rw [if_neg h, List.getLast?_map, hdmax]
    rfl
  have hle : ∀ r ∈ assets, r.date ≤ dmax := fun r hr =>
    sorted_le_getLast? (uniqueDatesSorted_sorted assets) (hmemdate r hr) hdmax
  have hcat : ∀ t, currentStatus assets t = catValueAt assets t dmax := by
    intro t
    have hfeq : recordsLe assets t dmax = assets.filter (fun a => decide (a.type = t)) := by
      unfold recordsLe
      apply List.filter_congr
      intro a ha
      rw [decide_eq_decide]
      constructor
      · rintro ⟨h1, _⟩
        exact h1
      · intro h1
        exact ⟨h1, hle a ha⟩
    unfold currentStatus catValueAt latestLe
    rw [hfeq]
  refine ⟨pointAt assets dmax, hlastTl, fun t => hcat t, ?_⟩
  show currentStatus assets .tw_stock + currentStatus assets .us_stock +
      currentStatus assets .tw_cash + currentStatus assets .us_cash =
    catValueAt assets .tw_stock dmax + catValueAt assets .us_stock dmax +
      catValueAt assets .tw_cash dmax + catValueAt assets .us_cash dmax
  rw [hcat, hcat, hcat, hcat]

/-- Witness for C10 on a concrete ledger. -/
theorem currentStatus_refines_timeline_witness :
    ∃ p, (buildTimeline wRecords).getLast? = some p ∧
      (∀ t, currentStatus wRecords t = catValueAt wRecords t p.date) ∧
      totalAssetsTwd wRecords = p.total :=
  currentStatus_refines_timeline wRecords (by decide)
